import Mathlib

/-!
Verification development for the goNEAT experiment/genome-writer core.

Shallow embedding of two Go source units:
* `neat/genetics` genome writers (plain-text and YAML formats), and
* `experiments/experiment.go` (statistics over trials, gob persistence,
  ordering of experiment collections).

Modelling conventions:
* Go `int`, `int64` and `time.Duration` become `Int`; `time.Time` instants
  become `Nat` (the zero `time.Time` is the least instant that occurs);
  `float64` becomes `ℚ` (the claims never depend on rounding).
* Pointers that may be nil become `Option`; the nil-receiver zero value is
  made explicit at each use site, exactly as the source does.
* The buffered sink of a writer is a `String` accumulator; flushing hands
  the accumulated buffer to the sink.  Intermediate writes always succeed
  (the underlying buffer only grows), so the only failure the writers can
  hit is an unresolvable activation identifier.
-/

namespace GoNEAT

/-- Trait mirrors `neat.Trait`: an id plus an ordered parameter vector. -/
structure Trait where
  Id : Int
  Params : List ℚ
deriving DecidableEq

/-- Link mirrors `genetics.Link`.  The Go struct points at its two endpoint
`NNode`s; the writers only ever read `link.InNode.Id` and `link.OutNode.Id`,
so the embedding stores those ids directly (storing the full nodes would make
the node/link types mutually recursive, which Go expresses with pointers). -/
structure Link where
  InNodeId : Int
  OutNodeId : Int
  Weight : ℚ
  IsRecurrent : Bool
  Trait : Option Trait
deriving DecidableEq

/-- NNode mirrors `network.NNode` as the writers consume it.  `NodeTypeVal` —
Modelled from the spec: the structural node-type accessor `NodeType()` of
`network.NNode` lives outside `src/`; the spec calls it the "structural
node-type" attribute of a node, so it is stored here as a plain field. -/
structure NNode where
  Id : Int
  Trait : Option Trait
  NodeTypeVal : Int
  NeuronType : Int
  ActivationType : Int
  Incoming : List Link
  Outgoing : List Link
deriving DecidableEq

/-- Gene mirrors `genetics.Gene`: a link with evolutionary bookkeeping. -/
structure Gene where
  Link : Link
  InnovationNum : Int
  MutationNum : ℚ
  IsEnabled : Bool
deriving DecidableEq

/-- MIMOControlGene mirrors `genetics.MIMOControlGene`: a control node plus
the gene bookkeeping fields read by the YAML writer. -/
structure MIMOControlGene where
  ControlNode : NNode
  InnovationNum : Int
  MutationNum : ℚ
  IsEnabled : Bool
deriving DecidableEq

/-- Genome mirrors `genetics.Genome` as consumed by the writers. -/
structure Genome where
  Id : Int
  Traits : List Trait
  Nodes : List NNode
  Genes : List Gene
  ControlGenes : List MIMOControlGene
deriving DecidableEq

/-- WriteErr enumerates the failures the embedded writers can produce: an
activation type with no registered canonical name ("unsupported activation"). -/
inductive WriteErr where
  | unsupportedActivation
deriving DecidableEq

/-- Resolver stands for `utils.NodeActivators.ActivationNameFromType`.
Modelled from the spec: the activation registry lives outside `src/`; the
spec describes it as an activation-identifier → canonical-name resolver that
fails on a miss, hence a function into `Option String`. -/
abbrev Resolver := Int → Option String

/-- NeuronNamer stands for `network.NeuronTypeName`, the total neuron-role →
canonical-name resolver the spec lists as an external collaborator. -/
abbrev NeuronNamer := Int → String

/-- traitIdOf mirrors the `trait_id := 0; if trait != nil { ... }` pattern
used by every record writer: trait id 0 is the "no trait" sentinel. -/
def traitIdOf : Option Trait → Int
  | some t => t.Id
  | none => 0

/-- goBool renders a Go bool the way both `%t` and `cast.ToString` do:
`strconv.FormatBool`, i.e. the strings "true" / "false". -/
def goBool (b : Bool) : String :=
  if b then "true" else "false"

/-- fmtG abbreviates Go's `%g` rendering of a float64.  The exact shortest
round-trippable decimal digits are not claimed anywhere, so the embedding
renders the rational directly. -/
def fmtG (q : ℚ) : String := toString q

/-- plainTraitBody mirrors `plainGenomeWriter.writeTrait`: the trait id with
a trailing space, then the params separated by single spaces with no
trailing space. -/
def plainTraitBody (t : Trait) : String :=
  toString t.Id ++ " " ++ String.intercalate " " (t.Params.map fmtG)

/-- plainNodeLine mirrors `plainGenomeWriter.writeNetworkNode`: resolve the
activation name first; only on success print "%d %d %d %d %s". -/
def plainNodeLine (res : Resolver) (n : NNode) : Except WriteErr String :=
  match res n.ActivationType with
  | none => .error .unsupportedActivation
  | some act =>
      .ok (toString n.Id ++ " " ++ toString (traitIdOf n.Trait) ++ " " ++
        toString n.NodeTypeVal ++ " " ++ toString n.NeuronType ++ " " ++ act)

/-- plainGeneLine mirrors `plainGenomeWriter.writeConnectionGene`:
"%d %d %d %g %t %d %g %t" over trait id, endpoint ids, weight, recurrent,
innovation number, mutation number, enabled. -/
def plainGeneLine (g : Gene) : String :=
  toString (traitIdOf g.Link.Trait) ++ " " ++ toString g.Link.InNodeId ++ " " ++
    toString g.Link.OutNodeId ++ " " ++ fmtG g.Link.Weight ++ " " ++
    goBool g.Link.IsRecurrent ++ " " ++ toString g.InnovationNum ++ " " ++
    fmtG g.MutationNum ++ " " ++ goBool g.IsEnabled

/-- PlainResult is the observable outcome of one plain-format
`WriteGenome` call: the returned error, the bytes composed into the
internal `bufio` buffer, and whether the final `Flush` ran. -/
structure PlainResult where
  err : Option WriteErr
  buffered : String
  flushed : Bool
deriving DecidableEq

/-- sinkOutput gives what the underlying sink observes: the buffer content
when it was flushed, nothing otherwise. -/
def sinkOutput (r : PlainResult) : String :=
  if r.flushed then r.buffered else ""

/-- writeNodesAcc mirrors the node loop of `plainGenomeWriter.WriteGenome`:
for each node, "node " is printed, then the node body; a failing body aborts
the whole write with the buffer as composed so far. -/
def writeNodesAcc (res : Resolver) : List NNode → String → String × Option WriteErr
  | [], buf => (buf, none)
  | n :: ns, buf =>
      match plainNodeLine res n with
      | .error e => (buf ++ "node ", some e)
      | .ok line => writeNodesAcc res ns (buf ++ "node " ++ line ++ "\n")

/-- plainWriteGenome mirrors `plainGenomeWriter.WriteGenome`: genomestart
line, trait lines, node lines (the only fallible stage in the embedding),
gene lines, genomeend line, then the single buffer flush.  Any earlier
failure returns before the flush. -/
def plainWriteGenome (res : Resolver) (g : Genome) : PlainResult :=
  let buf := "genomestart " ++ toString g.Id ++ "\n"
  let buf := buf ++ String.join (g.Traits.map (fun t => "trait " ++ plainTraitBody t ++ "\n"))
  match writeNodesAcc res g.Nodes buf with
  | (buf2, some e) => { err := some e, buffered := buf2, flushed := false }
  | (buf2, none) =>
      let buf3 := buf2 ++ String.join (g.Genes.map (fun gn => "gene " ++ plainGeneLine gn ++ "\n"))
      { err := none,
        buffered := buf3 ++ "genomeend " ++ toString g.Id ++ "\n",
        flushed := true }

/-- YVal is the value universe of the YAML writer's
`map[string]interface{}` documents. -/
inductive YVal where
  | vInt : Int → YVal
  | vStr : String → YVal
  | vBool : Bool → YVal
  | vRat : ℚ → YVal
  | vRatList : List ℚ → YVal
  | vMap : List (String × YVal) → YVal
  | vMapList : List (List (String × YVal)) → YVal

/-- YMap renders one `map[string]interface{}` as its insertion-ordered
entry list (Go maps are unordered; no claim below depends on key order,
only on lookups). -/
abbrev YMap := List (String × YVal)

/-- ylookup reads a key out of an embedded Go map. -/
def ylookup (m : YMap) (k : String) : Option YVal :=
  match m with
  | [] => none
  | (k', v) :: rest => if k' = k then some v else ylookup rest k

/-- encodeGenomeTrait mirrors `yamlGenomeWriter.encodeGenomeTrait`. -/
def encodeGenomeTrait (t : Trait) : YMap :=
  [("id", YVal.vInt t.Id), ("params", YVal.vRatList t.Params)]

/-- encodeNetworkNode mirrors `yamlGenomeWriter.encodeNetworkNode`; the
activation lookup is the only fallible step. -/
def encodeNetworkNode (res : Resolver) (nn : NeuronNamer) (n : NNode) :
    Except WriteErr YMap :=
  match res n.ActivationType with
  | none => .error .unsupportedActivation
  | some act =>
      .ok [("id", YVal.vInt n.Id),
        ("trait_id", YVal.vInt (traitIdOf n.Trait)),
        ("type", YVal.vStr (nn n.NeuronType)),
        ("activation", YVal.vStr act)]

/-- encodeConnectionGene mirrors `yamlGenomeWriter.encodeConnectionGene`;
note `recurrent` and `enabled` go through `cast.ToString`, i.e. the string
forms "true"/"false". -/
def encodeConnectionGene (g : Gene) : YMap :=
  [("trait_id", YVal.vInt (traitIdOf g.Link.Trait)),
   ("src_id", YVal.vInt g.Link.InNodeId),
   ("tgt_id", YVal.vInt g.Link.OutNodeId),
   ("innov_num", YVal.vInt g.InnovationNum),
   ("weight", YVal.vRat g.Link.Weight),
   ("mut_num", YVal.vRat g.MutationNum),
   ("recurrent", YVal.vStr (goBool g.Link.IsRecurrent)),
   ("enabled", YVal.vStr (goBool g.IsEnabled))]

/-- encodeModuleLink mirrors `yamlGenomeWriter.encodeModuleLink`. -/
def encodeModuleLink (id : Int) (order : Int) : YMap :=
  [("id", YVal.vInt id), ("order", YVal.vInt order)]

/-- encodeInputs mirrors the incoming-link loop of `encodeControlGene`:
entry `i` is the module link of `in.InNode.Id` with order `i`. -/
def encodeInputs : List Link → Nat → List YMap
  | [], _ => []
  | ln :: rest, i => encodeModuleLink ln.InNodeId (Int.ofNat i) :: encodeInputs rest (i + 1)

/-- encodeOutputs mirrors the outgoing-link loop of `encodeControlGene`:
entry `i` is the module link of `out.OutNode.Id` with order `i`. -/
def encodeOutputs : List Link → Nat → List YMap
  | [], _ => []
  | ln :: rest, i => encodeModuleLink ln.OutNodeId (Int.ofNat i) :: encodeOutputs rest (i + 1)

/-- encodeControlGene mirrors `yamlGenomeWriter.encodeControlGene`: the
fixed scalar fields, the fallible activation lookup (which aborts before
the port lists are built), then position-indexed inputs and outputs.
The map entries are listed in the source's insertion order, though Go map
order is not semantic. -/
def encodeControlGene (res : Resolver) (cg : MIMOControlGene) : Except WriteErr YMap :=
  match res cg.ControlNode.ActivationType with
  | none => .error .unsupportedActivation
  | some act =>
      .ok [("id", YVal.vInt cg.ControlNode.Id),
        ("trait_id", YVal.vInt (traitIdOf cg.ControlNode.Trait)),
        ("innov_num", YVal.vInt cg.InnovationNum),
        ("mut_num", YVal.vRat cg.MutationNum),
        ("enabled", YVal.vBool cg.IsEnabled),
        ("activation", YVal.vStr act),
        ("inputs", YVal.vMapList (encodeInputs cg.ControlNode.Incoming 0)),
        ("outputs", YVal.vMapList (encodeOutputs cg.ControlNode.Outgoing 0))]

/-- encodeNodes runs `encodeNetworkNode` over the node list, aborting on
the first failure, exactly like the node loop in `yamlGenomeWriter.WriteGenome`. -/
def encodeNodes (res : Resolver) (nn : NeuronNamer) : List NNode → Except WriteErr (List YMap)
  | [] => .ok []
  | n :: ns =>
      match encodeNetworkNode res nn n with
      | .error e => .error e
      | .ok m =>
          match encodeNodes res nn ns with
          | .error e => .error e
          | .ok ms => .ok (m :: ms)

/-- encodeModules runs `encodeControlGene` over the control genes, aborting
on the first failure, like the module loop in `yamlGenomeWriter.WriteGenome`. -/
def encodeModules (res : Resolver) : List MIMOControlGene → Except WriteErr (List YMap)
  | [] => .ok []
  | cg :: cgs =>
      match encodeControlGene res cg with
      | .error e => .error e
      | .ok m =>
          match encodeModules res cgs with
          | .error e => .error e
          | .ok ms => .ok (m :: ms)

/-- yamlWriteGenome mirrors `yamlGenomeWriter.WriteGenome`: build the
genome map (id, traits, nodes, genes, and `modules` only when at least one
control gene exists), wrap it under the top-level `genome` key, then YAML-
encode and flush.  The yaml.v2 textual rendering and the flush are
abstracted: a successful result is the document the sink observes; on an
error nothing reaches the sink. -/
def yamlWriteGenome (res : Resolver) (nn : NeuronNamer) (g : Genome) :
    Except WriteErr YMap :=
  let traits := g.Traits.map encodeGenomeTrait
  match encodeNodes res nn g.Nodes with
  | .error e => .error e
  | .ok nodes =>
      let genes := g.Genes.map encodeConnectionGene
      if 0 < g.ControlGenes.length then
        match encodeModules res g.ControlGenes with
        | .error e => .error e
        | .ok mods =>
            .ok [("genome", YVal.vMap
              [("id", YVal.vInt g.Id),
               ("traits", YVal.vMapList traits),
               ("nodes", YVal.vMapList nodes),
               ("genes", YVal.vMapList genes),
               ("modules", YVal.vMapList mods)])]
      else
        .ok [("genome", YVal.vMap
          [("id", YVal.vInt g.Id),
           ("traits", YVal.vMapList traits),
           ("nodes", YVal.vMapList nodes),
           ("genes", YVal.vMapList genes)])]

/-- Organism — Modelled from the spec: `genetics.Organism` lives outside
`src/`; the spec lists a `Fitness` accessor and (§9) a mutable scratch
`Flag` slot that `BestOrganism` reuses to stash the trial index. -/
structure Organism where
  Fitness : ℚ
  Flag : Int
deriving DecidableEq

/-- Trial — Modelled from the spec: the `Trial` type and its accessors live
outside `src/`.  Per the spec's data-model table a trial owns a duration, an
ordered generation list, a last-executed instant, a solved flag, a best
organism (and a best organism among solvers), and a winner-statistics tuple
(nodes, genes, evaluations, diversity); the aggregator consumes it only
through these accessors. -/
structure Trial where
  Duration : Int
  AvgEpochDur : Int
  Generations : List Int
  LastExec : Nat
  SolvedFlag : Bool
  BestOrg : Option Organism
  BestSolverOrg : Option Organism
  WinnerNodes : Int
  WinnerGenes : Int
  WinnerEvals : Int
  WinnerDiversity : Int
deriving DecidableEq

/-- trialZero is Go's `Trial{}` zero value, used by `Experiment.Decode` for
each freshly allocated trial record. -/
def trialZero : Trial :=
  { Duration := 0, AvgEpochDur := 0, Generations := [], LastExec := 0,
    SolvedFlag := false, BestOrg := none, BestSolverOrg := none,
    WinnerNodes := 0, WinnerGenes := 0, WinnerEvals := 0, WinnerDiversity := 0 }

/-- bestOrganism — Modelled from the spec: `Trial.BestOrganism(onlySolvers)`
returns the trial's best organism under the given filter, or not-found.
The returned organism is the one the trial itself stores (the Go accessor
returns a pointer into the trial's data, which is what §9 of the spec calls
the shared mutable annotation slot). -/
def Trial.bestOrganism (t : Trial) (onlySolvers : Bool) : Option Organism :=
  if onlySolvers then t.BestSolverOrg else t.BestOrg

/-- lastExecuted — Modelled from the spec: the trial's own last-executed
instant accessor. -/
def Trial.lastExecuted (t : Trial) : Nat := t.LastExec

/-- solved — Modelled from the spec: the trial's own solved-flag accessor. -/
def Trial.solved (t : Trial) : Bool := t.SolvedFlag

/-- avgEpochDuration — Modelled from the spec: the trial's own
average-epoch-duration accessor. -/
def Trial.avgEpochDuration (t : Trial) : Int := t.AvgEpochDur

/-- Experiment mirrors `experiments.Experiment`: id, name, trial list. -/
structure Experiment where
  Id : Int
  Name : String
  Trials : List Trial
deriving DecidableEq

/-- goTdiv embeds Go's integer `/` (also `time.Duration` division): it
truncates toward zero, and a zero divisor is a run-time panic, modelled as
`none`. -/
def goTdiv (a b : Int) : Option Int :=
  if b = 0 then none else some (Int.tdiv a b)

/-- avgTrialDuration mirrors `Experiment.AvgTrialDuration`: total of the
trial durations divided — unconditionally — by the trial count. -/
def Experiment.avgTrialDuration (e : Experiment) : Option Int :=
  goTdiv (e.Trials.foldl (fun total t => total + t.Duration) 0) e.Trials.length

/-- avgEpochDuration mirrors `Experiment.AvgEpochDuration`. -/
def Experiment.avgEpochDuration (e : Experiment) : Option Int :=
  goTdiv (e.Trials.foldl (fun total t => total + t.avgEpochDuration) 0) e.Trials.length

/-- avgGenerationsPerTrial mirrors `Experiment.AvgGenerationsPerTrial`. -/
def Experiment.avgGenerationsPerTrial (e : Experiment) : Option Int :=
  goTdiv (e.Trials.foldl (fun total t => total + (t.Generations.length : Int)) 0)
    e.Trials.length

/-- lastExecuted mirrors `Experiment.LastExecuted`: start from the zero
instant, replace it whenever a trial's instant lies after the current one. -/
def Experiment.lastExecuted (e : Experiment) : Nat :=
  e.Trials.foldl (fun u t => if u < t.lastExecuted then t.lastExecuted else u) 0

/-- GoFloat embeds the float64 values the aggregator can produce: ordinary
finite quotients (exact, as rationals) and the IEEE-754 results of a
zero-divisor division. -/
inductive GoFloat where
  | nan
  | inf
  | ninf
  | val : ℚ → GoFloat
deriving DecidableEq

/-- goFloatDivInt embeds `float64(a) / float64(b)` for integer totals and
counts: IEEE-754 gives NaN for 0/0 and signed infinities for x/0, and the
exact rational otherwise (the claims never depend on rounding). -/
def goFloatDivInt (a b : Int) : GoFloat :=
  if b = 0 then
    if a = 0 then .nan else if 0 < a then .inf else .ninf
  else .val ((a : ℚ) / (b : ℚ))

/-- winnerTotals mirrors the accumulation loop of `Experiment.AvgWinner`:
over the solved trials only, total the winner statistics and count them. -/
def winnerTotals : List Trial → (Int × Int × Int × Int × Int) → Int × Int × Int × Int × Int
  | [], acc => acc
  | t :: ts, (n, g, ev, d, c) =>
      if t.solved then
        winnerTotals ts (n + t.WinnerNodes, g + t.WinnerGenes, ev + t.WinnerEvals,
          d + t.WinnerDiversity, c + 1)
      else
        winnerTotals ts (n, g, ev, d, c)

/-- avgWinner mirrors `Experiment.AvgWinner`: each total divided —
unconditionally — by the solved-trial count, in float64 arithmetic. -/
def Experiment.avgWinner (e : Experiment) : GoFloat × GoFloat × GoFloat × GoFloat :=
  let (n, g, ev, d, c) := winnerTotals e.Trials (0, 0, 0, 0, 0)
  (goFloatDivInt n c, goFloatDivInt g c, goFloatDivInt ev c, goFloatDivInt d c)

/-- setBestFlag writes `i` into the `Flag` field of the organism that
`Trial.bestOrganism` under filter `b` returns — the effect of the source's
`org.Flag = i` through the pointer the trial handed out. -/
def Trial.setBestFlag (t : Trial) (b : Bool) (i : Int) : Trial :=
  if b then
    { t with BestSolverOrg := t.BestSolverOrg.map (fun o => { o with Flag := i }) }
  else
    { t with BestOrg := t.BestOrg.map (fun o => { o with Flag := i }) }

/-- collectLoop mirrors the candidate-collection loop of
`Experiment.BestOrganism`: ask trial `i` for its best organism under the
filter; on success append it (with `Flag` set to `i` through the shared
pointer, so both the appended candidate and the trial's stored organism
carry the trial index).  Returns the candidate list and the post-loop
trial list. -/
def collectLoop (b : Bool) : List Trial → Nat → List Organism × List Trial
  | [], _ => ([], [])
  | t :: ts, i =>
      match t.bestOrganism b with
      | some org =>
          ({ org with Flag := Int.ofNat i } :: (collectLoop b ts (i + 1)).1,
           t.setBestFlag b (Int.ofNat i) :: (collectLoop b ts (i + 1)).2)
      | none => ((collectLoop b ts (i + 1)).1, t :: (collectLoop b ts (i + 1)).2)

/-- selectBest — Modelled from the spec: `sort.Sort(sort.Reverse(orgs))`
followed by taking `orgs[0]`, with the `genetics.Organisms` order (outside
`src/`) that the spec describes as the organisms' natural fitness-descending
order with a stable tie-break; equivalently, the first organism in append
order attaining the maximal fitness. -/
def selectBest : List Organism → Option Organism
  | [] => none
  | o :: rest =>
      match selectBest rest with
      | none => some o
      | some m => if o.Fitness < m.Fitness then some m else some o

/-- bestOrganismRun is `Experiment.BestOrganism` with its side effect made
explicit: the first component is the returned (organism, trial id) on
success (`nil, -1, false` becomes `none`), the second is the experiment as
left behind by the `Flag` writes. -/
def Experiment.bestOrganismRun (e : Experiment) (b : Bool) :
    Option (Organism × Int) × Experiment :=
  (match selectBest (collectLoop b e.Trials 0).1 with
   | some o => some (o, o.Flag)
   | none => none,
   { e with Trials := (collectLoop b e.Trials 0).2 })

/-- bestOrganism is the value `Experiment.BestOrganism` returns. -/
def Experiment.bestOrganism (e : Experiment) (b : Bool) : Option (Organism × Int) :=
  (e.bestOrganismRun b).1

/-- GobItem is one value on the gob stream.  The experiment codec writes
ints and strings; a trial writes itself as one opaque token — Modelled from
the spec: `Trial.Encode`/`Trial.Decode` live outside `src/`, and the spec
says the container delegates to them without inspecting the trial's byte
layout, so a trial's wire image is opaque here. -/
inductive GobItem where
  | iInt : Int → GobItem
  | iStr : String → GobItem
  | iTrial : Trial → GobItem
deriving DecidableEq

/-- DecErr enumerates gob decode failures: a stream value of the wrong type
(consumed, like gob's per-call errors), end of stream, and the run-time
panic of `make([]Trial, n)` with negative `n`. -/
inductive DecErr where
  | typeMismatch
  | eof
  | makeslicePanic
deriving DecidableEq

/-- gobReadInt reads one int value off the stream.  Like `gob.Decoder`, a
mismatched value is consumed and reported, and the error state is not
sticky across calls. -/
def gobReadInt : List GobItem → Except DecErr Int × List GobItem
  | GobItem.iInt n :: rest => (.ok n, rest)
  | _ :: rest => (.error .typeMismatch, rest)
  | [] => (.error .eof, [])

/-- gobReadStr reads one string value off the stream. -/
def gobReadStr : List GobItem → Except DecErr String × List GobItem
  | GobItem.iStr s :: rest => (.ok s, rest)
  | _ :: rest => (.error .typeMismatch, rest)
  | [] => (.error .eof, [])

/-- gobReadTrial — Modelled from the spec: `Trial.Decode` reads the trial's
own wire image (one opaque token here); a mismatched value is consumed and
reported. -/
def gobReadTrial : List GobItem → Except DecErr Trial × List GobItem
  | GobItem.iTrial t :: rest => (.ok t, rest)
  | _ :: rest => (.error .typeMismatch, rest)
  | [] => (.error .eof, [])

/-- trialEncode — Modelled from the spec: `Trial.Encode` appends the
trial's own wire image to the stream. -/
def trialEncode (t : Trial) : List GobItem := [GobItem.iTrial t]

/-- encodeExperiment mirrors `Experiment.Encode`: id, name, trial count,
then each trial via its own encode routine, in list order.  With a reliable
sink every `gob.Encoder.Encode` call succeeds, so the result is the item
sequence written. -/
def encodeExperiment (ex : Experiment) : List GobItem :=
  GobItem.iInt ex.Id :: GobItem.iStr ex.Name :: GobItem.iInt (ex.Trials.length : Int)
    :: ex.Trials.foldr (fun t acc => trialEncode t ++ acc) []

/-- decodeTrialsLoop mirrors the trial loop of `Experiment.Decode`: each
slot gets the zero trial, then the trial's own decode routine runs on it;
the `err` variable is overwritten every iteration, so only the last
iteration's error survives the loop. -/
def decodeTrialsLoop : Nat → List GobItem → List Trial × List GobItem × Option DecErr
  | 0, s => ([], s, none)
  | n + 1, s =>
      let (rt, s') := gobReadTrial s
      let tr := match rt with | .ok t => t | .error _ => trialZero
      let e1 : Option DecErr := match rt with | .ok _ => none | .error e => some e
      let (rest, s'', e2) := decodeTrialsLoop n s'
      (tr :: rest, s'', if n = 0 then e1 else e2)

/-- decodeExperiment mirrors `Experiment.Decode`, including its error
handling: the id and name read errors are overwritten, only the trial-count
read is checked, a negative count panics in `make`, and the loop keeps only
its last error.  The receiver `ex0` supplies the field values that survive
a failed read. -/
def decodeExperiment (ex0 : Experiment) (s0 : List GobItem) :
    Experiment × List GobItem × Option DecErr :=
  let (rid, s1) := gobReadInt s0
  let id1 := match rid with | .ok v => v | .error _ => ex0.Id
  let (rname, s2) := gobReadStr s1
  let name1 := match rname with | .ok v => v | .error _ => ex0.Name
  let (rnum, s3) := gobReadInt s2
  match rnum with
  | .error e => ({ ex0 with Id := id1, Name := name1 }, s3, some e)
  | .ok tnum =>
      if tnum < 0 then ({ ex0 with Id := id1, Name := name1 }, s3, some .makeslicePanic)
      else
        let (trials, s4, errLast) := decodeTrialsLoop tnum.toNat s3
        ({ Id := id1, Name := name1, Trials := trials }, s4, errLast)

/-- lessExperiments mirrors `Experiments.Less`: compare the two experiments'
last-executed instants; on equal instants compare ids. -/
def lessExperiments (es : List Experiment) (i j : Fin es.length) : Bool :=
  let ui := (es.get i).lastExecuted
  let uj := (es.get j).lastExecuted
  if ui = uj then decide ((es.get i).Id < (es.get j).Id)
  else decide (ui < uj)

/-! Concrete inputs used by the witness and counterexample theorems below. -/

/-- resSig is a concrete activation registry: type 1 resolves to "sigmoid",
everything else is unregistered. -/
def resSig : Resolver := fun a => if a = 1 then some "sigmoid" else none

/-- nnName is a concrete neuron-role namer. -/
def nnName : NeuronNamer := fun _ => "hidden"

/-- linkZero is the zero `Link`, used as a `getD` default. -/
def linkZero : Link :=
  { InNodeId := 0, OutNodeId := 0, Weight := 0, IsRecurrent := false, Trait := none }

/-- nodeZero is the zero `NNode`. -/
def nodeZero : NNode :=
  { Id := 0, Trait := none, NodeTypeVal := 0, NeuronType := 0, ActivationType := 0,
    Incoming := [], Outgoing := [] }

/-- cgZero is the zero control gene, used as a `getD` default. -/
def cgZero : MIMOControlGene :=
  { ControlNode := nodeZero, InnovationNum := 0, MutationNum := 0, IsEnabled := false }

/-- nodeOk is a node whose activation resolves under `resSig`. -/
def nodeOk : NNode :=
  { Id := 1, Trait := none, NodeTypeVal := 0, NeuronType := 1, ActivationType := 1,
    Incoming := [], Outgoing := [] }

/-- nodeBad is a node whose activation does not resolve under `resSig`. -/
def nodeBad : NNode := { nodeOk with Id := 2, ActivationType := 99 }

/-- cgBad is a control gene whose control node's activation does not resolve. -/
def cgBad : MIMOControlGene :=
  { ControlNode := { nodeOk with Id := 9, ActivationType := 99 },
    InnovationNum := 4, MutationNum := 0, IsEnabled := true }

/-- linkIn1 is an incoming module link. -/
def linkIn1 : Link := { linkZero with InNodeId := 11, OutNodeId := 9, Weight := 1 }

/-- linkIn2 is a second incoming module link. -/
def linkIn2 : Link := { linkZero with InNodeId := 12, OutNodeId := 9, Weight := 1 }

/-- linkOut1 is an outgoing module link. -/
def linkOut1 : Link := { linkZero with InNodeId := 9, OutNodeId := 13, Weight := 1 }

/-- cgOk is a control gene with two inputs, one output and a resolvable
activation. -/
def cgOk : MIMOControlGene :=
  { ControlNode := { nodeOk with Id := 9, Incoming := [linkIn1, linkIn2], Outgoing := [linkOut1] },
    InnovationNum := 5, MutationNum := 0, IsEnabled := true }

/-- gPlainCtl has only resolvable regular nodes but an unresolvable control
node: the plain writer never looks at control genes. -/
def gPlainCtl : Genome :=
  { Id := 1, Traits := [], Nodes := [nodeOk], Genes := [], ControlGenes := [cgBad] }

/-- gBadNode has a regular node with an unresolvable activation. -/
def gBadNode : Genome :=
  { Id := 2, Traits := [], Nodes := [nodeBad], Genes := [], ControlGenes := [] }

/-- gGood is a genome every writer accepts. -/
def gGood : Genome :=
  { Id := 3, Traits := [], Nodes := [nodeOk], Genes := [], ControlGenes := [] }

/-- gMods is a genome with one well-formed control gene. -/
def gMods : Genome :=
  { Id := 4, Traits := [], Nodes := [nodeOk], Genes := [], ControlGenes := [cgOk] }

/-- docMods is the YAML document emitted for `gMods`. -/
def docMods : YMap := (yamlWriteGenome resSig nnName gMods).toOption.getD []

/-- geneX is a concrete enabled, non-recurrent connection gene. -/
def geneX : Gene :=
  { Link := { linkZero with InNodeId := 1, OutNodeId := 2, Weight := 1 },
    InnovationNum := 7, MutationNum := 0, IsEnabled := true }

/-- cgOkMap is the YAML module map emitted for `cgOk`. -/
def cgOkMap : YMap := (encodeControlGene resSig cgOk).toOption.getD []

/-- orgC7 is an organism whose scratch `Flag` starts at 5. -/
def orgC7 : Organism := { Fitness := 1, Flag := 5 }

/-- expC7 is an experiment owning one trial whose stored best organism is
`orgC7`. -/
def expC7 : Experiment :=
  { Id := 3, Name := "c", Trials := [{ trialZero with BestOrg := some orgC7 }] }

/-- trialA has a best organism of fitness 1. -/
def trialA : Trial := { trialZero with BestOrg := some { Fitness := 1, Flag := 9 } }

/-- trialB has a best organism of fitness 2. -/
def trialB : Trial := { trialZero with BestOrg := some { Fitness := 2, Flag := 9 } }

/-- expB holds `trialA` then `trialB`; neither trial is solved. -/
def expB : Experiment := { Id := 1, Name := "b", Trials := [trialA, trialB] }

/-- trialC6 is a distinguishable trial payload for the gob stream below. -/
def trialC6 : Trial := { trialZero with Duration := 3 }

/-- streamC6 encodes an experiment header (id 7, name "A", two trials) but
its first trial record is an int, not a trial image: the first trial decode
fails with a type mismatch while the second succeeds. -/
def streamC6 : List GobItem :=
  [GobItem.iInt 7, GobItem.iStr "A", GobItem.iInt 2, GobItem.iInt 99,
   GobItem.iTrial trialC6]

/-- expZero is Go's zero `Experiment{}`, the receiver of the decode call. -/
def expZero : Experiment := { Id := 0, Name := "", Trials := [] }

/-- expEmpty is an experiment with no trials. -/
def expEmpty : Experiment := { Id := 5, Name := "empty", Trials := [] }

/-- trialT5 was last executed at instant 5. -/
def trialT5 : Trial := { trialZero with LastExec := 5 }

/-- exp8a has id 2 and last-executed instant 5. -/
def exp8a : Experiment := { Id := 2, Name := "x", Trials := [trialT5] }

/-- exp8b has id 1 and the same last-executed instant 5. -/
def exp8b : Experiment := { Id := 1, Name := "y", Trials := [trialT5] }

/-- es8 is a two-experiment collection with tied timestamps. -/
def es8 : List Experiment := [exp8a, exp8b]

/-! Helper lemmas. -/

/-- A trial list with no solved trial contributes nothing to the winner
totals. -/
theorem winnerTotals_unsolved (ts : List Trial) (acc : Int × Int × Int × Int × Int)
    (h : ∀ t ∈ ts, t.solved = false) : winnerTotals ts acc = acc := by
  induction ts generalizing acc with
  | nil => rfl
  | cons t ts ih =>
      obtain ⟨n, g, ev, d, c⟩ := acc
      have ht : t.solved = false := h t (List.mem_cons_self t ts)
      simp only [winnerTotals, ht, Bool.false_eq_true, if_false]
      exact ih _ (fun u hu => h u (List.mem_cons_of_mem t hu))

/-- The running maximum of the last-executed fold never decreases. -/
theorem lastExec_foldl_le (ts : List Trial) (a : Nat) :
    a ≤ ts.foldl (fun u t => if u < t.lastExecuted then t.lastExecuted else u) a := by
  induction ts generalizing a with
  | nil => exact Nat.le_refl a
  | cons t ts ih =>
      refine Nat.le_trans ?_ (ih (if a < t.lastExecuted then t.lastExecuted else a))
      by_cases h : a < t.lastExecuted
      · simp [h, Nat.le_of_lt h]
      · simp [h]

/-- Every trial's instant is bounded by the last-executed fold. -/
theorem lastExec_foldl_mem_le (ts : List Trial) (a : Nat) :
    ∀ t ∈ ts, t.lastExecuted ≤
      ts.foldl (fun u t => if u < t.lastExecuted then t.lastExecuted else u) a := by
  induction ts generalizing a with
  | nil => intro t ht; cases ht
  | cons s ts ih =>
      intro t ht
      rcases List.mem_cons.1 ht with h | h
      · subst h
        refine Nat.le_trans ?_ (lastExec_foldl_le ts _)
        by_cases hc : a < t.lastExecuted
        · simp [hc]
        · simp only [List.foldl]
          rw [if_neg hc]
          exact Nat.le_of_not_lt hc
      · exact ih _ t h

/-- The last-executed fold yields either its seed or some trial's instant. -/
theorem lastExec_foldl_eq (ts : List Trial) (a : Nat) :
    ts.foldl (fun u t => if u < t.lastExecuted then t.lastExecuted else u) a = a ∨
      ∃ t ∈ ts, ts.foldl (fun u t => if u < t.lastExecuted then t.lastExecuted else u) a =
        t.lastExecuted := by
  induction ts generalizing a with
  | nil => exact Or.inl rfl
  | cons s ts ih =>
      simp only [List.foldl]
      by_cases hc : a < s.lastExecuted
      · rw [if_pos hc]
        rcases ih s.lastExecuted with h | ⟨t, ht, h⟩
        · exact Or.inr ⟨s, List.mem_cons_self s ts, h⟩
        · exact Or.inr ⟨t, List.mem_cons_of_mem s ht, h⟩
      · rw [if_neg hc]
        rcases ih a with h | ⟨t, ht, h⟩
        · exact Or.inl h
        · exact Or.inr ⟨t, List.mem_cons_of_mem s ht, h⟩

/-! Claim theorems. -/

/-- C9: the aggregation operations divide unconditionally: with an empty
trial list, AvgTrialDuration, AvgEpochDuration and AvgGenerationsPerTrial
each perform the integer division with a zero divisor (the modelled run-time
panic, `none`), and with no solved trial AvgWinner performs the four float64
divisions with a zero divisor, yielding NaN — no guard, documented default
or explicit error intervenes. -/
theorem avg_division_unguarded (e : Experiment) :
    (e.Trials = [] →
      e.avgTrialDuration = none ∧ e.avgEpochDuration = none ∧
        e.avgGenerationsPerTrial = none) ∧
    ((∀ t ∈ e.Trials, t.solved = false) →
      e.avgWinner = (GoFloat.nan, GoFloat.nan, GoFloat.nan, GoFloat.nan)) := by
  constructor
  · intro h
    refine ⟨?_, ?_, ?_⟩ <;>
      simp [Experiment.avgTrialDuration, Experiment.avgEpochDuration,
        Experiment.avgGenerationsPerTrial, h, goTdiv]
  · intro h
    simp only [Experiment.avgWinner, winnerTotals_unsolved e.Trials _ h]
    rfl

/-- C9 witness: the empty experiment satisfies both hypotheses. -/
theorem avg_division_unguarded_witness :
    (expEmpty.avgTrialDuration = none ∧ expEmpty.avgEpochDuration = none ∧
      expEmpty.avgGenerationsPerTrial = none) ∧
    expEmpty.avgWinner = (GoFloat.nan, GoFloat.nan, GoFloat.nan, GoFloat.nan) :=
  ⟨(avg_division_unguarded expEmpty).1 rfl,
   (avg_division_unguarded expEmpty).2 (by decide)⟩

/-- C8: `Experiments.Less` orders two experiments by last-executed instant
ascending with id ascending as the tie-break, where an experiment's
last-executed instant is the maximum of its trials' instants and the zero
instant when it has no trials. -/
theorem experiments_order_spec (es : List Experiment) (i j : Fin es.length)
    (e : Experiment) :
    (lessExperiments es i j = true ↔
      ((es.get i).lastExecuted < (es.get j).lastExecuted ∨
       ((es.get i).lastExecuted = (es.get j).lastExecuted ∧
        (es.get i).Id < (es.get j).Id))) ∧
    (e.Trials = [] → e.lastExecuted = 0) ∧
    (∀ t ∈ e.Trials, t.lastExecuted ≤ e.lastExecuted) ∧
    (e.Trials ≠ [] → ∃ t ∈ e.Trials, e.lastExecuted = t.lastExecuted) := by
  refine ⟨?_, ?_, ?_, ?_⟩
  · unfold lessExperiments
    by_cases h : (es.get i).lastExecuted = (es.get j).lastExecuted
    · rw [if_pos h]
      constructor
      · intro hid
        exact Or.inr ⟨h, of_decide_eq_true hid⟩
      · intro hor
        apply decide_eq_true
        rcases hor with hlt | ⟨_, hid⟩
        · rw [h] at hlt
          exact absurd hlt (lt_irrefl _)
        · exact hid
    · rw [if_neg h]
      constructor
      · intro hlt
        exact Or.inl (of_decide_eq_true hlt)
      · intro hor
        apply decide_eq_true
        rcases hor with hlt | ⟨heq, _⟩
        · exact hlt
        · exact absurd heq h
  · intro h
    simp [Experiment.lastExecuted, h]
  · exact fun t ht => lastExec_foldl_mem_le e.Trials 0 t ht
  · intro hne
    rcases lastExec_foldl_eq e.Trials 0 with h | ⟨t, ht, h⟩
    · rcases hT : e.Trials with _ | ⟨t0, ts⟩
      · exact absurd hT hne
      · refine ⟨t0, List.mem_cons_self t0 ts, ?_⟩
        have hmem : t0 ∈ e.Trials := by
          rw [hT]
          exact List.mem_cons_self t0 ts
        have h1 := lastExec_foldl_mem_le e.Trials 0 t0 hmem
        have h0 : e.lastExecuted = 0 := h
        have h2 : t0.lastExecuted ≤ 0 := le_of_le_of_eq h1 h0
        exact h0.trans (Nat.le_antisymm h2 (Nat.zero_le _)).symm
    · exact ⟨t, ht, h⟩

/-- C8 witness: with tied instants (both 5), the experiment with the
smaller id precedes and the one with the larger id does not; the
last-executed instant of `exp8a` is realised by one of its trials. -/
theorem experiments_order_spec_witness :
    lessExperiments es8 ⟨1, by decide⟩ ⟨0, by decide⟩ = true ∧
    lessExperiments es8 ⟨0, by decide⟩ ⟨1, by decide⟩ = false ∧
    ∃ t ∈ exp8a.Trials, exp8a.lastExecuted = t.lastExecuted := by
  refine ⟨?_, ?_, ?_⟩
  · exact (experiments_order_spec es8 ⟨1, by decide⟩ ⟨0, by decide⟩ exp8a).1.mpr
      (Or.inr ⟨by decide, by decide⟩)
  · have h := (experiments_order_spec es8 ⟨0, by decide⟩ ⟨1, by decide⟩ exp8a).1
    by_cases hb : lessExperiments es8 ⟨0, by decide⟩ ⟨1, by decide⟩ = true
    · rcases h.mp hb with hlt | ⟨_, hid⟩
      · exact absurd hlt (by decide)
      · exact absurd hid (by decide)
    · simpa using hb
  · exact (experiments_order_spec es8 ⟨0, by decide⟩ ⟨0, by decide⟩ exp8a).2.2.2
      (by decide)

/-- The trial section of the encoded stream is one opaque token per trial,
in list order. -/
theorem trialStream_eq (ts : List Trial) :
    ts.foldr (fun t acc => trialEncode t ++ acc) [] = ts.map GobItem.iTrial := by
  induction ts with
  | nil => rfl
  | cons t ts ih =>
      simp only [List.foldr, List.map, trialEncode, List.cons_append, List.nil_append] at ih ⊢
      rw [ih]

/-- Decoding `n` trials from a stream that starts with exactly `n` trial
tokens recovers those trials, leaves the rest of the stream, and reports no
error. -/
theorem decodeTrialsLoop_map (ts : List Trial) (rest : List GobItem) :
    decodeTrialsLoop ts.length (ts.map GobItem.iTrial ++ rest) = (ts, rest, none) := by
  induction ts with
  | nil => rfl
  | cons t ts ih =>
      simp [decodeTrialsLoop, gobReadTrial, ih]

/-- C1: experiment persistence round-trips.  Encode writes the id, the
name, the trial count, then each trial via its own codec, in that order;
Decode reads them back in the same order, allocating exactly trial-count
records, so decoding an encoded experiment (into any receiver) consumes the
whole stream without error and yields an experiment with the same id, the
same name, and the very trials, each having passed through its own codec. -/
theorem experiment_roundtrip (ex ex0 : Experiment) :
    decodeExperiment ex0 (encodeExperiment ex) = (ex, [], none) := by
  have hlen : ¬ ((ex.Trials.length : Int) < 0) :=
    Int.not_lt.mpr (Int.natCast_nonneg _)
  have hdec := decodeTrialsLoop_map ex.Trials []
  rw [List.append_nil] at hdec
  simp only [encodeExperiment, trialStream_eq, decodeExperiment, gobReadInt,
    gobReadStr, if_neg hlen, Int.toNat_natCast, hdec]

/-- C6: evaluation of `Experiment.Decode` at the failing input.  The
stream's header announces two trials, its first trial record is a
mismatched value, its second is a well-formed trial image.  Decoding the
first trial fails, but the loop's error variable is overwritten by the
second, successful decode, so Decode reports success (`none`) and silently
substitutes the zero trial for the failed record — the trial-decode failure
is not propagated as the operation's returned error. -/
theorem decode_swallows_trial_error :
    decodeExperiment expZero streamC6 =
      ({ Id := 7, Name := "A", Trials := [trialZero, trialC6] }, [], none) := by
  decide

/-- A plain-format write either fails before the flush (nothing reaches the
sink) or succeeds with a buffer that ends in the genomeend line. -/
theorem plainWriteGenome_cases (res : Resolver) (g : Genome) :
    ((plainWriteGenome res g).flushed = false ∧
      (plainWriteGenome res g).err = some WriteErr.unsupportedActivation) ∨
    ((plainWriteGenome res g).flushed = true ∧ (plainWriteGenome res g).err = none ∧
      ∃ p, (plainWriteGenome res g).buffered = p ++ "genomeend " ++ toString g.Id ++ "\n") := by
  simp only [plainWriteGenome]
  split
  · rename_i buf2 e heq
    cases e
    exact Or.inl ⟨rfl, rfl⟩
  · rename_i buf2 heq
    exact Or.inr ⟨rfl, rfl, _, rfl⟩

/-- A node list containing an unresolvable activation makes the plain node
loop abort with the unsupported-activation error, whatever the buffer. -/
theorem writeNodesAcc_bad (res : Resolver) (ns : List NNode)
    (h : ∃ n ∈ ns, res n.ActivationType = none) (buf : String) :
    ∃ buf', writeNodesAcc res ns buf = (buf', some WriteErr.unsupportedActivation) := by
  induction ns generalizing buf with
  | nil =>
      rcases h with ⟨n, hn, _⟩
      cases hn
  | cons m ms ih =>
      rcases hl : plainNodeLine res m with e | line
      · cases e
        exact ⟨buf ++ "node ", by simp [writeNodesAcc, hl]⟩
      · have hm : ¬ res m.ActivationType = none := by
          intro h0
          simp [plainNodeLine, h0] at hl
        rcases h with ⟨n, hn, hres⟩
        rcases List.mem_cons.1 hn with rfl | hn'
        · exact absurd hres hm
        · rcases ih ⟨n, hn', hres⟩ (buf ++ "node " ++ line ++ "\n") with ⟨buf', hb⟩
          exact ⟨buf', by simp [writeNodesAcc, hl, hb]⟩

/-- A node list containing an unresolvable activation makes the YAML node
loop fail. -/
theorem encodeNodes_bad (res : Resolver) (nn : NeuronNamer) (ns : List NNode)
    (h : ∃ n ∈ ns, res n.ActivationType = none) :
    encodeNodes res nn ns = .error WriteErr.unsupportedActivation := by
  induction ns with
  | nil =>
      rcases h with ⟨n, hn, _⟩
      cases hn
  | cons m ms ih =>
      rcases he : encodeNetworkNode res nn m with e | mm
      · cases e
        simp [encodeNodes, he]
      · have hm : ¬ res m.ActivationType = none := by
          intro h0
          simp [encodeNetworkNode, h0] at he
        rcases h with ⟨n, hn, hres⟩
        rcases List.mem_cons.1 hn with rfl | hn'
        · exact absurd hres hm
        · simp [encodeNodes, he, ih ⟨n, hn', hres⟩]

/-- A control-gene list containing an unresolvable control-node activation
makes the YAML module loop fail. -/
theorem encodeModules_bad (res : Resolver) (cgs : List MIMOControlGene)
    (h : ∃ cg ∈ cgs, res cg.ControlNode.ActivationType = none) :
    encodeModules res cgs = .error WriteErr.unsupportedActivation := by
  induction cgs with
  | nil =>
      rcases h with ⟨cg, hcg, _⟩
      cases hcg
  | cons m ms ih =>
      rcases he : encodeControlGene res m with e | mm
      · cases e
        simp [encodeModules, he]
      · have hm : ¬ res m.ControlNode.ActivationType = none := by
          intro h0
          simp [encodeControlGene, h0] at he
        rcases h with ⟨cg, hcg, hres⟩
        rcases List.mem_cons.1 hcg with rfl | hcg'
        · exact absurd hres hm
        · simp [encodeModules, he, ih ⟨cg, hcg', hres⟩]

/-- C4: the plain writer flushes its internal buffer only after the
trailing genomeend line: whenever any earlier stage fails, WriteGenome
returns with the flush not performed and the sink observes nothing, and
whenever the flush did run, no error occurred and the buffer ends with the
genomeend line. -/
theorem plain_flush_only_after_genomeend (res : Resolver) (g : Genome) :
    ((plainWriteGenome res g).err ≠ none →
      (plainWriteGenome res g).flushed = false ∧
        sinkOutput (plainWriteGenome res g) = "") ∧
    ((plainWriteGenome res g).flushed = true →
      (plainWriteGenome res g).err = none ∧
      ∃ p, (plainWriteGenome res g).buffered = p ++ "genomeend " ++ toString g.Id ++ "\n") := by
  rcases plainWriteGenome_cases res g with ⟨hf, he⟩ | ⟨hf, he, hp⟩
  · constructor
    · intro _
      refine ⟨hf, ?_⟩
      unfold sinkOutput
      rw [hf]
      rfl
    · intro hflush
      rw [hf] at hflush
      exact absurd hflush Bool.false_ne_true
  · constructor
    · intro hne
      exact absurd he hne
    · intro _
      exact ⟨he, hp⟩

/-- C4 witness: the genome with an unresolvable node aborts unflushed with
an empty sink, and a well-formed genome flushes a buffer ending in its
genomeend line. -/
theorem plain_flush_only_after_genomeend_witness :
    ((plainWriteGenome resSig gBadNode).flushed = false ∧
      sinkOutput (plainWriteGenome resSig gBadNode) = "") ∧
    ((plainWriteGenome resSig gGood).err = none ∧
      ∃ p, (plainWriteGenome resSig gGood).buffered =
        p ++ "genomeend " ++ toString gGood.Id ++ "\n") :=
  ⟨(plain_flush_only_after_genomeend resSig gBadNode).1 (by decide),
   (plain_flush_only_after_genomeend resSig gGood).2 (by decide)⟩

/-- C3 counterexample: `gPlainCtl` carries a control node whose activation
does not resolve, yet the plain-format WriteGenome succeeds and the sink
observes a genomeend line — the plain writer never visits control genes, so
"in either format" fails. -/
theorem plain_write_ignores_control_activation :
    resSig cgBad.ControlNode.ActivationType = none ∧
    (plainWriteGenome resSig gPlainCtl).err = none ∧
    sinkOutput (plainWriteGenome resSig gPlainCtl) =
      "genomestart 1\nnode 1 0 0 1 sigmoid\ngenomeend 1\n" := by
  decide

/-- C3 amended: an unresolvable activation on a regular node aborts the
plain write with the unsupported-activation error and the sink observes
nothing (no genomeend line); the YAML write aborts with the same error when
any regular node or any control node carries an unresolvable activation (no
document reaches the sink).  An unresolvable control-node activation alone
does not abort the plain write, which ignores control genes. -/
theorem activation_abort_spec (res : Resolver) (nn : NeuronNamer) (g : Genome) :
    ((∃ n ∈ g.Nodes, res n.ActivationType = none) →
      (plainWriteGenome res g).err = some WriteErr.unsupportedActivation ∧
        sinkOutput (plainWriteGenome res g) = "") ∧
    ((∃ n ∈ g.Nodes, res n.ActivationType = none) ∨
      (∃ cg ∈ g.ControlGenes, res cg.ControlNode.ActivationType = none) →
      yamlWriteGenome res nn g = .error WriteErr.unsupportedActivation) := by
  constructor
  · intro h
    obtain ⟨buf', hb⟩ := writeNodesAcc_bad res g.Nodes h
      (("genomestart " ++ toString g.Id ++ "\n") ++
        String.join (g.Traits.map (fun t => "trait " ++ plainTraitBody t ++ "\n")))
    constructor
    · simp [plainWriteGenome, hb]
    · simp [plainWriteGenome, hb, sinkOutput]
  · intro h
    rcases h with hbadn | hbadcg
    · simp [yamlWriteGenome, encodeNodes_bad res nn g.Nodes hbadn]
    · rcases he : encodeNodes res nn g.Nodes with e | ms
      · cases e
        simp [yamlWriteGenome, he]
      · have hpos : 0 < g.ControlGenes.length := by
          rcases hbadcg with ⟨cg, hcg, _⟩
          exact List.length_pos.mpr (List.ne_nil_of_mem hcg)
        simp [yamlWriteGenome, he, hpos, encodeModules_bad res g.ControlGenes hbadcg]

/-- C3 witness: a bad regular node aborts the plain write with an empty
sink, and a bad control node aborts the YAML write. -/
theorem activation_abort_spec_witness :
    ((plainWriteGenome resSig gBadNode).err = some WriteErr.unsupportedActivation ∧
      sinkOutput (plainWriteGenome resSig gBadNode) = "") ∧
    yamlWriteGenome resSig nnName gPlainCtl = .error WriteErr.unsupportedActivation :=
  ⟨(activation_abort_spec resSig nnName gBadNode).1 ⟨nodeBad, by decide, by decide⟩,
   (activation_abort_spec resSig nnName gPlainCtl).2 (Or.inr ⟨cgBad, by decide, by decide⟩)⟩

/-- The input-port list has one entry per incoming link. -/
theorem encodeInputs_length (ls : List Link) (k : Nat) :
    (encodeInputs ls k).length = ls.length := by
  induction ls generalizing k with
  | nil => rfl
  | cons l ls ih => simp [encodeInputs, ih]

/-- The output-port list has one entry per outgoing link. -/
theorem encodeOutputs_length (ls : List Link) (k : Nat) :
    (encodeOutputs ls k).length = ls.length := by
  induction ls generalizing k with
  | nil => rfl
  | cons l ls ih => simp [encodeOutputs, ih]

/-- Entry `j` of the input-port list built from offset `k` is the module
link of link `j`'s in-node with order `k + j`. -/
theorem encodeInputs_getD (ls : List Link) (k j : Nat) (hj : j < ls.length) :
    (encodeInputs ls k).getD j [] =
      encodeModuleLink (ls.getD j linkZero).InNodeId (Int.ofNat (k + j)) := by
  induction ls generalizing k j with
  | nil => cases hj
  | cons l ls ih =>
      cases j with
      | zero => simp [encodeInputs]
      | succ j' =>
          have hj' : j' < ls.length := Nat.lt_of_succ_lt_succ hj
          simp only [encodeInputs, List.getD_cons_succ]
          rw [ih (k + 1) j' hj']
          congr 2
          omega

/-- Entry `j` of the output-port list built from offset `k` is the module
link of link `j`'s out-node with order `k + j`. -/
theorem encodeOutputs_getD (ls : List Link) (k j : Nat) (hj : j < ls.length) :
    (encodeOutputs ls k).getD j [] =
      encodeModuleLink (ls.getD j linkZero).OutNodeId (Int.ofNat (k + j)) := by
  induction ls generalizing k j with
  | nil => cases hj
  | cons l ls ih =>
      cases j with
      | zero => simp [encodeOutputs]
      | succ j' =>
          have hj' : j' < ls.length := Nat.lt_of_succ_lt_succ hj
          simp only [encodeOutputs, List.getD_cons_succ]
          rw [ih (k + 1) j' hj']
          congr 2
          omega

/-- A successful module loop produces one map per control gene, in order,
each the successful encoding of the corresponding gene. -/
theorem encodeModules_ok (res : Resolver) (cgs : List MIMOControlGene) (mods : List YMap)
    (h : encodeModules res cgs = .ok mods) :
    mods.length = cgs.length ∧
      ∀ k, k < cgs.length →
        encodeControlGene res (cgs.getD k cgZero) = .ok (mods.getD k []) := by
  induction cgs generalizing mods with
  | nil =>
      have h' : ([] : List YMap) = mods := by simpa [encodeModules] using h
      subst h'
      exact ⟨rfl, fun k hk => absurd hk (Nat.not_lt_zero k)⟩
  | cons m ms ih =>
      rcases he : encodeControlGene res m with e | mm
      · simp [encodeModules, he] at h
      · rcases hms : encodeModules res ms with e2 | ms'
        · simp [encodeModules, he, hms] at h
        · simp only [encodeModules, he, hms] at h
          have h' : mm :: ms' = mods := by simpa using h
          subst h'
          obtain ⟨ihlen, ihk⟩ := ih ms' hms
          refine ⟨by simp [ihlen], ?_⟩
          intro k hk
          cases k with
          | zero => simpa using he
          | succ k' =>
              simp only [List.getD_cons_succ]
              exact ihk k' (Nat.lt_of_succ_lt_succ hk)

/-- A successfully encoded control gene carries its enabled flag as a
native boolean and its port lists as the position-indexed module links. -/
theorem encodeControlGene_ok (res : Resolver) (cg : MIMOControlGene) (m : YMap)
    (h : encodeControlGene res cg = .ok m) :
    ylookup m "enabled" = some (YVal.vBool cg.IsEnabled) ∧
    ylookup m "inputs" = some (YVal.vMapList (encodeInputs cg.ControlNode.Incoming 0)) ∧
    ylookup m "outputs" = some (YVal.vMapList (encodeOutputs cg.ControlNode.Outgoing 0)) := by
  rcases hr : res cg.ControlNode.ActivationType with _ | act
  · simp [encodeControlGene, hr] at h
  · simp only [encodeControlGene, hr] at h
    injection h with h'
    subst h'
    exact ⟨rfl, rfl, rfl⟩

/-- C5: a successful YAML encode omits the `modules` key exactly when the
genome has no control genes; with N > 0 control genes, `modules` has exactly
N entries in input order, and module `k`'s `inputs` (resp. `outputs`) list
has one entry per incoming (resp. outgoing) link, entry `j` carrying the
link's node id and `order` value `j`, i.e. orders 0..k-1 in list order. -/
theorem yaml_modules_spec (res : Resolver) (nn : NeuronNamer) (g : Genome) (doc : YMap)
    (h : yamlWriteGenome res nn g = .ok doc) :
    ∃ gm, ylookup doc "genome" = some (YVal.vMap gm) ∧
      (g.ControlGenes.length = 0 → ylookup gm "modules" = none) ∧
      (0 < g.ControlGenes.length →
        ∃ mods, ylookup gm "modules" = some (YVal.vMapList mods) ∧
          mods.length = g.ControlGenes.length ∧
          ∀ k, k < g.ControlGenes.length →
            ∃ ins outs,
              ylookup (mods.getD k []) "inputs" = some (YVal.vMapList ins) ∧
              ylookup (mods.getD k []) "outputs" = some (YVal.vMapList outs) ∧
              ins.length = (g.ControlGenes.getD k cgZero).ControlNode.Incoming.length ∧
              outs.length = (g.ControlGenes.getD k cgZero).ControlNode.Outgoing.length ∧
              (∀ j, j < ins.length →
                ylookup (ins.getD j []) "id" = some (YVal.vInt
                  ((g.ControlGenes.getD k cgZero).ControlNode.Incoming.getD j linkZero).InNodeId) ∧
                ylookup (ins.getD j []) "order" = some (YVal.vInt (Int.ofNat j))) ∧
              (∀ j, j < outs.length →
                ylookup (outs.getD j []) "id" = some (YVal.vInt
                  ((g.ControlGenes.getD k cgZero).ControlNode.Outgoing.getD j linkZero).OutNodeId) ∧
                ylookup (outs.getD j []) "order" = some (YVal.vInt (Int.ofNat j)))) := by
  rcases he : encodeNodes res nn g.Nodes with e | ms
  · simp [yamlWriteGenome, he] at h
  · by_cases hpos : 0 < g.ControlGenes.length
    · rcases hm : encodeModules res g.ControlGenes with e2 | mods
      · simp [yamlWriteGenome, he, hpos, hm] at h
      · simp only [yamlWriteGenome, he, if_pos hpos, hm] at h
        injection h with h'
        subst h'
        refine ⟨_, rfl, ?_, ?_⟩
        · intro h0
          omega
        · intro _
          obtain ⟨hlen, hk⟩ := encodeModules_ok res g.ControlGenes mods hm
          refine ⟨mods, rfl, hlen, ?_⟩
          intro k hkl
          obtain ⟨_, hin, hout⟩ :=
            encodeControlGene_ok res (g.ControlGenes.getD k cgZero) (mods.getD k []) (hk k hkl)
          refine ⟨_, _, hin, hout, encodeInputs_length _ 0, encodeOutputs_length _ 0, ?_, ?_⟩
          · intro j hj
            have hj' : j < (g.ControlGenes.getD k cgZero).ControlNode.Incoming.length := by
              rwa [encodeInputs_length] at hj
            rw [encodeInputs_getD _ 0 j hj', Nat.zero_add]
            exact ⟨rfl, rfl⟩
          · intro j hj
            have hj' : j < (g.ControlGenes.getD k cgZero).ControlNode.Outgoing.length := by
              rwa [encodeOutputs_length] at hj
            rw [encodeOutputs_getD _ 0 j hj', Nat.zero_add]
            exact ⟨rfl, rfl⟩
    · simp only [yamlWriteGenome, he, if_neg hpos] at h
      injection h with h'
      subst h'
      exact ⟨_, rfl, fun _ => rfl, fun hp => absurd hp hpos⟩

/-- C5 witness: the document written for `gMods` contains a `modules` list
with exactly one entry, whose two inputs carry orders 0 and 1. -/
theorem yaml_modules_spec_witness :
    ∃ gm, ylookup docMods "genome" = some (YVal.vMap gm) ∧
      ∃ mods, ylookup gm "modules" = some (YVal.vMapList mods) ∧
        mods.length = 1 ∧
        ∃ ins, ylookup (mods.getD 0 []) "inputs" = some (YVal.vMapList ins) ∧
          ins.length = 2 ∧
          ylookup (ins.getD 1 []) "order" = some (YVal.vInt 1) := by
  obtain ⟨gm, hgm, _, hpos⟩ := yaml_modules_spec resSig nnName gMods docMods rfl
  obtain ⟨mods, hmods, hlen, hk⟩ := hpos (by decide)
  obtain ⟨ins, outs, hin, _, hinlen, _, hj, _⟩ := hk 0 (by decide)
  refine ⟨gm, hgm, mods, hmods, hlen.trans rfl, ins, hin, hinlen.trans rfl, ?_⟩
  exact (hj 1 (by rw [hinlen]; decide)).2

/-- C10: in the YAML encoding a connection gene's `recurrent` and `enabled`
fields are emitted as the strings "true"/"false" (via `cast.ToString`),
while a successfully encoded control-gene module's `enabled` field is a
native boolean — two different representations of the same logical flag. -/
theorem yaml_bool_representations (gn : Gene) (res : Resolver) (cg : MIMOControlGene)
    (m : YMap) :
    ylookup (encodeConnectionGene gn) "recurrent" =
      some (YVal.vStr (goBool gn.Link.IsRecurrent)) ∧
    ylookup (encodeConnectionGene gn) "enabled" =
      some (YVal.vStr (goBool gn.IsEnabled)) ∧
    (encodeControlGene res cg = .ok m →
      ylookup m "enabled" = some (YVal.vBool cg.IsEnabled)) ∧
    goBool true = "true" ∧ goBool false = "false" := by
  refine ⟨rfl, rfl, ?_, rfl, rfl⟩
  intro h
  exact (encodeControlGene_ok res cg m h).1

/-- C10 witness: the concrete gene's flags come out as strings and the
concrete module's enabled flag comes out as a native boolean. -/
theorem yaml_bool_representations_witness :
    ylookup (encodeConnectionGene geneX) "recurrent" = some (YVal.vStr "false") ∧
    ylookup (encodeConnectionGene geneX) "enabled" = some (YVal.vStr "true") ∧
    ylookup cgOkMap "enabled" = some (YVal.vBool true) := by
  obtain ⟨hr, he, hc, _, _⟩ := yaml_bool_representations geneX resSig cgOk cgOkMap
  exact ⟨hr, he, hc rfl⟩

/-- The stable fitness-descending selection yields nothing exactly on the
empty candidate list. -/
theorem selectBest_eq_none (l : List Organism) : selectBest l = none ↔ l = [] := by
  cases l with
  | nil => simp [selectBest]
  | cons o rest =>
      constructor
      · intro h
        exfalso
        simp only [selectBest] at h
        cases hr : selectBest rest with
        | none =>
            rw [hr] at h
            cases h
        | some m =>
            rw [hr] at h
            by_cases hf : o.Fitness < m.Fitness <;> simp [hf] at h
      · intro h
        cases h

/-- The selected organism is one of the candidates. -/
theorem selectBest_mem (l : List Organism) (m : Organism) (h : selectBest l = some m) :
    m ∈ l := by
  induction l generalizing m with
  | nil => cases h
  | cons o rest ih =>
      cases hr : selectBest rest with
      | none =>
          simp only [selectBest, hr] at h
          injection h with h
          subst h
          exact List.mem_cons_self _ _
      | some m' =>
          simp only [selectBest, hr] at h
          by_cases hf : o.Fitness < m'.Fitness
          · rw [if_pos hf] at h
            injection h with h
            subst h
            exact List.mem_cons_of_mem _ (ih m' hr)
          · rw [if_neg hf] at h
            injection h with h
            subst h
            exact List.mem_cons_self _ _

/-- Every candidate's fitness is bounded by the selected organism's. -/
theorem selectBest_max (l : List Organism) (m : Organism) (h : selectBest l = some m) :
    ∀ x ∈ l, x.Fitness ≤ m.Fitness := by
  induction l generalizing m with
  | nil => cases h
  | cons o rest ih =>
      intro x hx
      cases hr : selectBest rest with
      | none =>
          simp only [selectBest, hr] at h
          injection h with h
          subst h
          have hnil : rest = [] := (selectBest_eq_none rest).1 hr
          subst hnil
          rcases List.mem_cons.1 hx with rfl | hx'
          · exact le_refl _
          · cases hx'
      | some m' =>
          simp only [selectBest, hr] at h
          by_cases hf : o.Fitness < m'.Fitness
          · rw [if_pos hf] at h
            injection h with h
            subst h
            rcases List.mem_cons.1 hx with rfl | hx'
            · exact le_of_lt hf
            · exact ih m' hr x hx'
          · rw [if_neg hf] at h
            injection h with h
            subst h
            rcases List.mem_cons.1 hx with rfl | hx'
            · exact le_refl _
            · exact le_trans (ih m' hr x hx') (not_lt.1 hf)

/-- The selected organism is the first candidate attaining the maximal
fitness: everything before it in the candidate list is strictly less fit. -/
theorem selectBest_first (l : List Organism) (m : Organism) (h : selectBest l = some m) :
    ∃ l1 l2, l = l1 ++ m :: l2 ∧ ∀ x ∈ l1, x.Fitness < m.Fitness := by
  induction l generalizing m with
  | nil => cases h
  | cons o rest ih =>
      cases hr : selectBest rest with
      | none =>
          simp only [selectBest, hr] at h
          injection h with h
          subst h
          exact ⟨[], rest, rfl, fun x hx => absurd hx (List.not_mem_nil x)⟩
      | some m' =>
          simp only [selectBest, hr] at h
          by_cases hf : o.Fitness < m'.Fitness
          · rw [if_pos hf] at h
            injection h with h
            subst h
            obtain ⟨l1, l2, heq, hlt⟩ := ih m' hr
            refine ⟨o :: l1, l2, by rw [heq, List.cons_append], ?_⟩
            intro x hx
            rcases List.mem_cons.1 hx with rfl | hx'
            · exact hf
            · exact hlt x hx'
          · rw [if_neg hf] at h
            injection h with h
            subst h
            exact ⟨[], rest, rfl, fun x hx => absurd hx (List.not_mem_nil x)⟩

/-- The candidate list is empty exactly when no trial offers a best
organism under the filter. -/
theorem collectLoop_fst_nil_iff (b : Bool) (ts : List Trial) (k : Nat) :
    (collectLoop b ts k).1 = [] ↔ ∀ t ∈ ts, t.bestOrganism b = none := by
  induction ts generalizing k with
  | nil => simp [collectLoop]
  | cons t ts ih =>
      cases hb : t.bestOrganism b with
      | some org => simp [collectLoop, hb]
      | none => simp [collectLoop, hb, ih (k + 1)]

/-- Membership in the candidate list built from offset `k`: exactly the
organisms some trial offers, flagged with the trial's absolute index. -/
theorem collectLoop_mem (b : Bool) (ts : List Trial) (k : Nat) (x : Organism) :
    x ∈ (collectLoop b ts k).1 ↔
      ∃ j t c, ts.get? j = some t ∧ t.bestOrganism b = some c ∧
        x = { c with Flag := Int.ofNat (k + j) } := by
  induction ts generalizing k with
  | nil => simp [collectLoop]
  | cons t ts ih =>
      cases hb : t.bestOrganism b with
      | some org =>
          simp only [collectLoop, hb, List.mem_cons]
          constructor
          · rintro (rfl | hx)
            · exact ⟨0, t, org, rfl, hb, by rw [Nat.add_zero]⟩
            · obtain ⟨j, u, c, hj, hc, hxx⟩ := (ih (k + 1)).1 hx
              have hn : k + 1 + j = k + (j + 1) := by omega
              exact ⟨j + 1, u, c, by simpa using hj, hc, by rw [hxx, hn]⟩
          · rintro ⟨j, u, c, hj, hc, hxx⟩
            cases j with
            | zero =>
                left
                rw [List.get?_cons_zero] at hj
                injection hj with hj
                subst hj
                rw [hb] at hc
                injection hc with hc
                subst hc
                simpa using hxx
            | succ j' =>
                right
                apply (ih (k + 1)).2
                have hn : k + (j' + 1) = k + 1 + j' := by omega
                exact ⟨j', u, c, by simpa using hj, hc, by rw [hxx, hn]⟩
      | none =>
          simp only [collectLoop, hb]
          rw [ih (k + 1)]
          constructor
          · rintro ⟨j, u, c, hj, hc, hxx⟩
            have hn : k + 1 + j = k + (j + 1) := by omega
            exact ⟨j + 1, u, c, by simpa using hj, hc, by rw [hxx, hn]⟩
          · rintro ⟨j, u, c, hj, hc, hxx⟩
            cases j with
            | zero =>
                rw [List.get?_cons_zero] at hj
                injection hj with hj
                subst hj
                rw [hb] at hc
                cases hc
            | succ j' =>
                have hn : k + (j' + 1) = k + 1 + j' := by omega
                exact ⟨j', u, c, by simpa using hj, hc, by rw [hxx, hn]⟩

/-- Every candidate built from offset `k` carries a flag of at least `k`. -/
theorem collectLoop_flag_lb (b : Bool) (ts : List Trial) (k : Nat) (x : Organism)
    (hx : x ∈ (collectLoop b ts k).1) : Int.ofNat k ≤ x.Flag := by
  obtain ⟨j, t, c, _, _, hxx⟩ := (collectLoop_mem b ts k x).1 hx
  rw [hxx]
  show Int.ofNat k ≤ Int.ofNat (k + j)
  exact Int.ofNat_le.mpr (Nat.le_add_right k j)

/-- Candidate flags strictly increase along the candidate list. -/
theorem collectLoop_pairwise (b : Bool) (ts : List Trial) (k : Nat) :
    ((collectLoop b ts k).1).Pairwise (fun x y => x.Flag < y.Flag) := by
  induction ts generalizing k with
  | nil => simp [collectLoop]
  | cons t ts ih =>
      cases hb : t.bestOrganism b with
      | some org =>
          simp only [collectLoop, hb]
          refine List.Pairwise.cons ?_ (ih (k + 1))
          intro y hy
          have hyk := collectLoop_flag_lb b ts (k + 1) y hy
          show ({ org with Flag := Int.ofNat k }).Flag < y.Flag
          calc (Int.ofNat k) < Int.ofNat (k + 1) := Int.ofNat_lt.mpr (Nat.lt_succ_self k)
            _ ≤ y.Flag := hyk
      | none =>
          simp only [collectLoop, hb]
          exact ih (k + 1)

/-- The post-loop trial list, entry by entry: a trial that offered a
candidate has that stored organism's flag set to the trial's index;
every other trial is untouched. -/
theorem collectLoop_snd_get? (b : Bool) (ts : List Trial) (k i : Nat) :
    ((collectLoop b ts k).2).get? i =
      (ts.get? i).map (fun t =>
        if (t.bestOrganism b).isSome then t.setBestFlag b (Int.ofNat (k + i)) else t) := by
  induction ts generalizing k i with
  | nil => simp [collectLoop]
  | cons t ts ih =>
      cases hb : t.bestOrganism b with
      | some org =>
          cases i with
          | zero => simp [collectLoop, hb]
          | succ i' =>
              simp only [collectLoop, hb, List.get?_cons_succ]
              have hn : k + (i' + 1) = k + 1 + i' := by omega
              rw [hn]
              exact ih (k + 1) i'
      | none =>
          cases i with
          | zero => simp [collectLoop, hb]
          | succ i' =>
              simp only [collectLoop, hb, List.get?_cons_succ]
              have hn : k + (i' + 1) = k + 1 + i' := by omega
              rw [hn]
              exact ih (k + 1) i'

/-- The returned value of BestOrganism, written out. -/
theorem bestOrganism_eq (e : Experiment) (b : Bool) :
    e.bestOrganism b =
      match selectBest (collectLoop b e.Trials 0).1 with
      | some o => some (o, o.Flag)
      | none => none := rfl

/-- C2: BestOrganism asks each trial for its best organism under the
filter; with no candidates it reports not-found, and otherwise it returns a
candidate organism tagged with the index of the trial it originated from,
whose fitness is maximal among all candidates and which strictly beats every
candidate from an earlier trial — so among equally fit candidates the one
from the earliest trial is returned. -/
theorem bestOrganism_spec (e : Experiment) (b : Bool) :
    (e.bestOrganism b = none ↔ ∀ t ∈ e.Trials, t.bestOrganism b = none) ∧
    (∀ o idx, e.bestOrganism b = some (o, idx) →
      ∃ i : Nat, ∃ t c, idx = Int.ofNat i ∧ e.Trials.get? i = some t ∧
        t.bestOrganism b = some c ∧ o = { c with Flag := Int.ofNat i } ∧
        (∀ j u d, e.Trials.get? j = some u → u.bestOrganism b = some d →
          d.Fitness ≤ o.Fitness) ∧
        (∀ j u d, j < i → e.Trials.get? j = some u → u.bestOrganism b = some d →
          d.Fitness < o.Fitness)) := by
  constructor
  · rw [bestOrganism_eq]
    cases hs : selectBest (collectLoop b e.Trials 0).1 with
    | none =>
        have hnil := (selectBest_eq_none _).1 hs
        rw [collectLoop_fst_nil_iff] at hnil
        exact iff_of_true rfl hnil
    | some m =>
        simp only []
        constructor
        · intro h
          cases h
        · intro hall
          have hnil : (collectLoop b e.Trials 0).1 = [] :=
            (collectLoop_fst_nil_iff b e.Trials 0).2 hall
          rw [hnil] at hs
          cases hs
  · intro o idx ho
    rw [bestOrganism_eq] at ho
    cases hs : selectBest (collectLoop b e.Trials 0).1 with
    | none =>
        rw [hs] at ho
        cases ho
    | some m =>
        rw [hs] at ho
        injection ho with ho
        injection ho with h1 h2
        subst h1
        subst h2
        obtain ⟨j, t, c, hj, hc, hxx⟩ :=
          (collectLoop_mem b e.Trials 0 m).1 (selectBest_mem _ _ hs)
        rw [Nat.zero_add] at hxx
        refine ⟨j, t, c, by rw [hxx], hj, hc, hxx, ?_, ?_⟩
        · intro j' u d hj' hd
          have hx'mem : ({ d with Flag := Int.ofNat (0 + j') } : Organism) ∈
              (collectLoop b e.Trials 0).1 :=
            (collectLoop_mem b e.Trials 0 _).2 ⟨j', u, d, hj', hd, rfl⟩
          have := selectBest_max _ _ hs _ hx'mem
          exact this
        · intro j' u d hlt hj' hd
          have hx'mem : ({ d with Flag := Int.ofNat (0 + j') } : Organism) ∈
              (collectLoop b e.Trials 0).1 :=
            (collectLoop_mem b e.Trials 0 _).2 ⟨j', u, d, hj', hd, rfl⟩
          obtain ⟨l1, l2, hsplit, hstrict⟩ := selectBest_first _ _ hs
          have hmf : m.Flag = Int.ofNat j := by rw [hxx]
          rw [hsplit] at hx'mem
          rcases List.mem_append.1 hx'mem with hx1 | hx2
          · have := hstrict ({ d with Flag := Int.ofNat (0 + j') }) hx1
            exact this
          · rcases List.mem_cons.1 hx2 with hxm | hx2'
            · exfalso
              have hff := congrArg Organism.Flag hxm
              rw [hmf] at hff
              simp only [Nat.zero_add] at hff
              have : j' = j := Int.ofNat.inj hff
              omega
            · exfalso
              have hpw := collectLoop_pairwise b e.Trials 0
              rw [hsplit] at hpw
              have hcons := (List.pairwise_append.1 hpw).2.1
              have hml := (List.pairwise_cons.1 hcons).1 _ hx2'
              have hxf : ({ d with Flag := Int.ofNat (0 + j') } : Organism).Flag =
                  Int.ofNat j' := by simp
              rw [hxf, hmf] at hml
              have : j < j' := Int.ofNat_lt.1 hml
              omega

/-- C2 witness: in `expB` the unrestricted best organism is the fitness-2
candidate from trial 1, tagged 1; under the solver filter no trial offers a
candidate and not-found is reported. -/
theorem bestOrganism_spec_witness :
    expB.bestOrganism true = none ∧
    ∃ i t c, (1 : Int) = Int.ofNat i ∧ expB.Trials.get? i = some t ∧
      t.bestOrganism false = some c ∧
      ({ Fitness := 2, Flag := 1 } : Organism) = { c with Flag := Int.ofNat i } := by
  constructor
  · exact (bestOrganism_spec expB true).1.mpr (by decide)
  · obtain ⟨i, t, c, h1, h2, h3, h4, _, _⟩ :=
      (bestOrganism_spec expB false).2 { Fitness := 2, Flag := 1 } 1 (by decide)
    exact ⟨i, t, c, h1, h2, h3, h4⟩

/-- C7 counterexample: running BestOrganism on `expC7` changes the
experiment's trial data — the stored best organism's `Flag` field is
overwritten with the trial index (5 becomes 0). -/
theorem bestOrganism_mutates_trial :
    (expC7.bestOrganismRun false).2 ≠ expC7 := by
  decide

/-- C7 amended: BestOrganism's only side effect on the externally owned
data is the scratch `Flag` write: the post-call experiment keeps its id,
name and trial count, every trial that offered a candidate under the filter
has exactly that stored organism's `Flag` set to the trial's index, and
every other trial (and the statistics operations, which are plain
functions here) is untouched. -/
theorem bestOrganism_flag_effect (e : Experiment) (b : Bool) :
    ((e.bestOrganismRun b).2).Id = e.Id ∧ ((e.bestOrganismRun b).2).Name = e.Name ∧
    ∀ i : Nat, ((e.bestOrganismRun b).2).Trials.get? i =
      (e.Trials.get? i).map (fun t =>
        if (t.bestOrganism b).isSome then t.setBestFlag b (Int.ofNat i) else t) := by
  refine ⟨rfl, rfl, ?_⟩
  intro i
  show ((collectLoop b e.Trials 0).2).get? i = _
  rw [collectLoop_snd_get? b e.Trials 0 i]
  simp only [Nat.zero_add]

end GoNEAT
